import Mathlib

/-!
Shallow embedding of `src/celeste_bot.py` (celeste-lb-bot), the speedrun.com
leaderboard moderation bot.  Pure rule predicates are translated directly;
the network (speedrun.com fetch / reject PUT) and the Twitch client are
modelled as oracle parameters; Python exceptions are modelled with
`Except` / `Option`.  The JSON numbers in the `times` object are modelled as
exact decimals (IEEE rounding of Python floats is not modelled).
-/

namespace Celeste

/-! ## Small Python-semantics helpers -/

/-- A JSON decimal number with value `m / 10 ^ e`, as served in the
`realtime_t` / `ingame_t` fields.  Python parses it to a float; the decimal
value is modelled exactly here. -/
structure Decimal where
  m : ℤ
  e : ℕ
deriving DecidableEq, Repr

/-- Powers of ten on ℤ, by structural recursion. -/
def tenPow : ℕ → ℤ
  | 0 => 1
  | n + 1 => 10 * tenPow n

/-- Python `t == 0` on a number: the decimal `m / 10 ^ e` is zero iff `m = 0`. -/
def Decimal.isZero (d : Decimal) : Bool := d.m == 0

/-- Python `int(1000 * t)` for the decimal `t = m / 10 ^ e`: the exact value
`m / 10 ^ (e - 3)` truncated toward zero (`Int.tdiv` is truncating division,
the semantics of Python `int()` on a number). -/
def Decimal.millis (d : Decimal) : ℤ :=
  if d.e ≤ 3 then d.m * tenPow (3 - d.e)
  else Int.tdiv d.m (tenPow (d.e - 3))

/-- Models `list(set(l))`: the elements of `l` without duplicates.  Python's
iteration order over a `set` is unspecified; only membership of the result
is meaningful. -/
def pyset (l : List String) : List String := l.dedup

/-- Boolean test that the first list is a prefix of the second. -/
def takesPre [BEq α] : List α → List α → Bool
  | [], _ => true
  | _ :: _, [] => false
  | a :: as, b :: bs => a == b && takesPre as bs

/-- Boolean test that `needle` occurs as a contiguous sublist. -/
def hasSub [BEq α] (needle : List α) : List α → Bool
  | [] => needle.isEmpty
  | b :: bs => takesPre needle (b :: bs) || hasSub needle bs

/-- Python `needle in hay` on strings: substring containment. -/
def strHas (hay needle : String) : Bool := hasSub needle.toList hay.toList

/-- Splits a character list at every occurrence of the character `c`,
the semantics of Python `s.split("/")` for a one-character separator. -/
def splitChar (c : Char) : List Char → List (List Char)
  | [] => [[]]
  | a :: rest =>
    if a == c then [] :: splitChar c rest
    else
      match splitChar c rest with
      | [] => [[a]]
      | h :: t => (a :: h) :: t

/-- Drops as many elements as the first list has, by structural recursion. -/
def dropMatched : List α → List β → List β
  | [], l => l
  | _ :: _, [] => []
  | _ :: s, _ :: l => dropMatched s l

/-- Splits at the first occurrence of the sublist `sep`, returning the part
before it and the part after it, or `none` when `sep` does not occur. -/
def splitFirstSeq [BEq α] (sep : List α) : List α → Option (List α × List α)
  | [] => if sep.isEmpty then some ([], []) else none
  | a :: rest =>
    if takesPre sep (a :: rest) then some ([], dropMatched sep (a :: rest))
    else
      match splitFirstSeq sep rest with
      | none => none
      | some (pre, post) => some (a :: pre, post)

/-- Result of URI parsing: the two components the bot reads. -/
structure UriParts where
  netloc : String
  path : String
deriving DecidableEq, Repr

/-- Models `urllib.parse.urlparse` (an external library call) restricted to
the shapes the bot meets: for `scheme://netloc/path` the part after the
first `://` up to the next `/` is the netloc and the rest, with its leading
slash, is the path; a string without `://` has empty netloc and is all
path. -/
def urlparse (uri : String) : UriParts :=
  match splitFirstSeq "://".toList uri.toList with
  | none => { netloc := "", path := uri }
  | some (_, post) =>
    { netloc := String.mk (post.takeWhile (fun c => !(c == '/')))
      path := String.mk (post.dropWhile (fun c => !(c == '/'))) }

/-- Digit-string accumulator for `pyToInt`. -/
def digitsToNat : List Char → ℕ → Option ℕ
  | [], acc => some acc
  | c :: rest, acc =>
    if c.isDigit then digitsToNat rest (acc * 10 + (c.toNat - 48)) else none

/-- Models Python `int(s)` on a string: an optional sign followed by at
least one digit; anything else raises `ValueError`, modelled as `none`.
(Python also tolerates surrounding whitespace and underscores between
digits; the bot never meets those shapes.) -/
def pyToInt (s : String) : Option ℤ :=
  match s.toList with
  | [] => none
  | '-' :: rest =>
    match rest with
    | [] => none
    | _ => (digitsToNat rest 0).map (fun n => -(n : ℤ))
  | '+' :: rest =>
    match rest with
    | [] => none
    | _ => (digitsToNat rest 0).map (fun n => (n : ℤ))
  | l => (digitsToNat l 0).map (fun n => (n : ℤ))

/-! ## Data model (the JSON shapes the bot reads) -/

/-- The `times` object of a speedrun.com run. -/
structure Times where
  realtime_t : Decimal
  ingame_t : Decimal
deriving DecidableEq, Repr

/-- The `system` object of a run; the bot reads only `platform`. -/
structure SystemInfo where
  platform : String
deriving DecidableEq, Repr

/-- One entry of the `videos.links` array; the bot reads `uri`. -/
structure Link where
  uri : String
deriving DecidableEq, Repr

/-- The `videos` object; the bot reads `links`. -/
structure Videos where
  links : List Link
deriving DecidableEq, Repr

/-- One run record as read by the bot.  `values` is the Python dict
`run["values"]` (rule-variable id to selected option id), modelled as an
association list.  `videos = none` models a run where
`run["videos"]["links"]` raises `KeyError` (no `videos` object or no
`links` key). -/
structure Run where
  id : String
  times : Times
  values : List (String × String)
  system : SystemInfo
  videos : Option Videos
deriving DecidableEq, Repr

/-- The `version` descriptor of a configured game, splatted as keyword
arguments into the two version rules: `variable_id`, `default_ver` and
`invalid_ver` (platform id to invalid option ids). -/
structure VersionRule where
  variable_id : String
  default_ver : String
  invalid_ver : List (String × List String)
deriving DecidableEq, Repr

/-- One configured game: its id and its version-rule descriptor. -/
structure Game where
  id : String
  version : VersionRule
deriving DecidableEq, Repr

/-- The `SubmissionErrors` IntEnum of the source, in declaration order. -/
inductive SubmissionErrors where
  | ERROR_SUBMITTED_RTA
  | ERROR_NO_VERSION
  | ERROR_INVALID_IGT
  | ERROR_INVALID_VERSION
  | ERROR_BAD_VOD
deriving DecidableEq, Repr

/-! ## Rule predicates -/

/-- `CelesteLeaderboardBot.valid_real_time`: no RTA may be submitted. -/
def valid_real_time (run : Run) : Bool :=
  run.times.realtime_t.isZero

/-- `CelesteLeaderboardBot.valid_default_version`.  The source indexes
`run["values"][variable_id]` without a guard, so a run without that key
makes the predicate raise `KeyError`, modelled as `Except.error`. -/
def valid_default_version (run : Run) (variable_id default_ver : String) :
    Except String Bool :=
  match run.values.lookup variable_id with
  | none => .error variable_id
  | some v => .ok (!(v == default_ver))

/-- `CelesteLeaderboardBot.valid_in_game_time`:
`int(1000 * run["times"]["ingame_t"]) % 17 == 0`. -/
def valid_in_game_time (run : Run) : Bool :=
  run.times.ingame_t.millis % 17 == 0

/-- `CelesteLeaderboardBot.valid_existing_version`.  The whole body is in a
`try` whose `except KeyError` returns `True` (with a logged warning), so
both a missing `variable_id` in the run's values and a platform id absent
from `invalid_ver` fall back to valid. -/
def valid_existing_version (run : Run) (variable_id : String)
    (invalid_ver : List (String × List String)) : Bool :=
  match run.values.lookup variable_id with
  | none => true
  | some v =>
    match invalid_ver.lookup run.system.platform with
    | none => true
    | some opts => !(opts.contains v)

/-- `CelesteLeaderboardBot.valid_persistent_vod`.  The Twitch client is
modelled by the oracle `getVideo : ℤ → Option String` returning the `type`
field of the first video of `client.get_videos(video_ids=[vid])`; `none`
models an empty result (`IndexError`) or a Twitch API exception, both of
which the source turns into `True`.  The outer `except KeyError` (no
`videos`/`links` key) returns `False`. -/
def valid_persistent_vod (run : Run) (getVideo : ℤ → Option String) : Bool :=
  match run.videos with
  | none => false
  | some vids =>
    match vids.links.find? (fun x => strHas (urlparse x.uri).netloc "twitch.tv") with
    | none => true
    | some x =>
      match (splitChar '/' (urlparse x.uri).path.toList).get? 2 with
      | none => true
      | some seg =>
        match pyToInt (String.mk seg) with
        | none => true
        | some vid =>
          match getVideo vid with
          | none => true
          | some t => !(t == "archive")

/-! ## Fault composition (the reject-reason text built in `main`) -/

/-- `CelesteLeaderboardBot.ACCOUNT_NAME`. -/
def ACCOUNT_NAME : String := "BadelineBot"

/-- `CelesteLeaderboardBot.BASE_REASON`: the fixed prefix, with `x` the
pluralization suffix. -/
def BASE_REASON (x : String) : String :=
  ACCOUNT_NAME ++ " found the following problem" ++ x
    ++ " with your submission, please edit it accordingly: "

/-- `CelesteLeaderboardBot.REASON_TEXT`, keyed by the fault enum. -/
def REASON_TEXT : SubmissionErrors → String
  | .ERROR_SUBMITTED_RTA =>
    "Your submission has real-time, leave the real-time column empty"
  | .ERROR_NO_VERSION =>
    "You did not select a version, make sure to select the correct game version"
  | .ERROR_INVALID_IGT =>
    "Your submission has an invalid IGT, check the final time of your run and adjust the submission"
  | .ERROR_INVALID_VERSION =>
    "The version you selected does not exist on your platform, please select the correct game version"
  | .ERROR_BAD_VOD =>
    "The video you submitted is a Twitch past broadcast that will be deleted after a while, please highlight your run"

/-- The fixed generic message used for three or more faults. -/
def GENERIC_REASON : String :=
  ACCOUNT_NAME ++ " found various issues with your submission, please read the rules or contact a moderator/verifier."

/-- The `full_reason` computation of `main` for one faulty run: fewer than
three faults give the prefix plus the explanations joined with " || " in
fault order; three or more give the generic message. -/
def composeReason (faults : List SubmissionErrors) : String :=
  let x := if faults.length > 1 then "s" else ""
  if faults.length < 3 then
    BASE_REASON x ++ String.intercalate " || " (faults.map REASON_TEXT)
  else GENERIC_REASON

/-! ## Query construction -/

/-- The `QUERY_TABLE` of the source, in key order 0..9. -/
def QUERY_TABLE : List String :=
  ["game", "category", "level", "platform", "region", "emulated", "date",
   "submitted", "status", "verify-date"]

/-- Models `random.randint(a, b)`: a uniformly distributed integer in
`[a, b]`, drawn here from a uniform natural source `n` by reduction modulo
`b - a + 1`. -/
def randint (a b n : ℕ) : ℕ := a + n % (b - a + 1)

/-- The query-string parameters of one fetch that vary per cycle. -/
structure Query where
  direction : String
  orderby : String
  maxsize : ℕ
deriving DecidableEq, Repr

/-- The parameters of the GET request `main` builds for one game:
`direction` is `'desc' if random() < 0.5 else 'asc'` (the sample `u` models
`random()`), `orderby` is `QUERY_TABLE[self.q_counter]`, and `max` is
`randint(100, 200)` (drawn from the uniform source `n`).  `random()` returns
a rational in `[0, 1)`; to keep the embedding fully computable the sample is
supplied as a pair `num/den` of naturals and `u < 0.5` is `2 * num < den`. -/
def buildQuery (q_counter : ℕ) (uNum uDen : ℕ) (n : ℕ) : Query :=
  { direction := if 2 * uNum < uDen then "desc" else "asc"
    orderby := QUERY_TABLE.getD q_counter ""
    maxsize := randint 100 200 n }

/-! ## One cycle of `main` -/

/-- HTTP-level (`HTTPError`) or connection-level (`ConnectionError` family)
failures: both are caught by `main` with the same abort-and-carry
handling. -/
inductive NetErr where
  | http
  | conn
deriving DecidableEq, Repr

/-- The network oracle for one game's GET request: the random draws the
request consumes and its result, either the fetched run list or a raised
transport/HTTP error. -/
structure FetchSpec where
  uNum : ℕ
  uDen : ℕ
  n : ℕ
  result : Except NetErr (List Run)
deriving Repr

/-- The full run of `main`'s game loop, observable from outside: the final
`cache` and `rejected` lists (after the exception handlers' set-union, when
one fired), the raw appended ids before any union (`cacheAdds`,
`rejectedAdds`), the ids on which the five rule predicates were run
(`evaluated`), the successful reject PUT calls `(id, full_reason)` in order
(`puts`), the GET queries built (`queries`), whether an exception handler
aborted the game loop (`aborted`), and how many games completed
(`gamesProcessed`). -/
structure CycleOutcome where
  cache : List String
  rejected : List String
  cacheAdds : List String
  rejectedAdds : List String
  evaluated : List String
  puts : List (String × String)
  queries : List Query
  aborted : Bool
  gamesProcessed : ℕ
deriving DecidableEq, Repr, Inhabited

/-- The five validity checks of `main` (lines 176-190) on one run, in
source order, collecting the `faults` list of `invalid_run`.  A `KeyError`
raised by `valid_default_version` propagates (it is not among the caught
exception classes), modelled as `Except.error`. -/
def checkRun (game : Game) (getVideo : ℤ → Option String) (run : Run) :
    Except String (List SubmissionErrors) :=
  match valid_default_version run game.version.variable_id game.version.default_ver with
  | .error e => .error e
  | .ok vdv =>
    .ok ((if valid_real_time run then [] else [.ERROR_SUBMITTED_RTA])
      ++ (if vdv then [] else [.ERROR_NO_VERSION])
      ++ (if valid_in_game_time run then [] else [.ERROR_INVALID_IGT])
      ++ (if valid_existing_version run game.version.variable_id
            game.version.invalid_ver then [] else [.ERROR_INVALID_VERSION])
      ++ (if valid_persistent_vod run getVideo then [] else [.ERROR_BAD_VOD]))

/-- Decides whether `main` treats a run as faulty: its checks succeed and
return at least one fault. -/
def isFaulty (game : Game) (getVideo : ℤ → Option String) (run : Run) : Bool :=
  match checkRun game getVideo run with
  | .error _ => false
  | .ok l => !l.isEmpty

/-- The inner loop of `main` over one game's fetched runs (lines 162-193).
The Python loop mutates the accumulators `cache`, `rejected` and the local
`faulty_runs` by appends; each recursive call here returns the ordered
contributions of the remaining iterations, so the returned lists equal the
appended content in order: new cache entries, new rejected entries (ids
already in `already_rejected` that were fetched again), evaluated ids, and
the `faulty_runs` entries `(id, faults)`. -/
def processRuns (game : Game) (getVideo : ℤ → Option String)
    (ignore already_rejected : List String) :
    List Run →
    Except String
      (List String × List String × List String × List (String × List SubmissionErrors))
  | [] => .ok ([], [], [], [])
  | r :: rest =>
    if already_rejected.contains r.id then
      match processRuns game getVideo ignore already_rejected rest with
      | .error e => .error e
      | .ok (c, rj, ev, f) => .ok (c, r.id :: rj, ev, f)
    else if ignore.contains r.id then
      match processRuns game getVideo ignore already_rejected rest with
      | .error e => .error e
      | .ok (c, rj, ev, f) => .ok (r.id :: c, rj, ev, f)
    else
      match checkRun game getVideo r with
      | .error e => .error e
      | .ok faults =>
        match processRuns game getVideo ignore already_rejected rest with
        | .error e => .error e
        | .ok (c, rj, ev, f) =>
          .ok (r.id :: c, rj, r.id :: ev,
            if faults.length > 0 then (r.id, faults) :: f else f)

/-- The reject loop of `main` over one game's `faulty_runs` (lines
195-223).  The PUT oracle `putRes` gives `some e` when `urlopen(put_req)`
raises; the loop then stops with that error and the contributions made so
far (modelled by the later entries being dropped).  On success the id is
appended to `rejected` and the call `(id, full_reason)` is recorded. -/
def processFaulty (putRes : String → Option NetErr) :
    List (String × List SubmissionErrors) →
    Option NetErr × List String × List (String × String)
  | [] => (none, [], [])
  | (id, faults) :: rest =>
    match putRes id with
    | some e => (some e, [], [])
    | none =>
      match processFaulty putRes rest with
      | (err, rj, ps) => (err, id :: rj, (id, composeReason faults) :: ps)

/-- The game loop of `main` (lines 148-235) over the configured games
paired with their network oracles.  A fetch failure or a PUT failure sets
`aborted` (the `break` of the exception handlers); a `KeyError` from
`valid_default_version` propagates out as `Except.error`.  As in
`processRuns`, each call returns the ordered contributions of the remaining
iterations. -/
def runGames (getVideo : ℤ → Option String) (putRes : String → Option NetErr)
    (ignore already_rejected : List String) (q_counter : ℕ) :
    List (Game × FetchSpec) → Except String CycleOutcome
  | [] =>
    .ok { cache := [], rejected := [], cacheAdds := [], rejectedAdds := [],
          evaluated := [], puts := [], queries := [], aborted := false,
          gamesProcessed := 0 }
  | (game, fs) :: rest =>
    let q := buildQuery q_counter fs.uNum fs.uDen fs.n
    match fs.result with
    | .error _ =>
      .ok { cache := [], rejected := [], cacheAdds := [], rejectedAdds := [],
            evaluated := [], puts := [], queries := [q], aborted := true,
            gamesProcessed := 0 }
    | .ok new_runs =>
      match processRuns game getVideo ignore already_rejected new_runs with
      | .error e => .error e
      | .ok (c, rj, ev, faulty) =>
        match processFaulty putRes faulty with
        | (some _, rj2, ps) =>
          .ok { cache := c, rejected := rj ++ rj2, cacheAdds := c,
                rejectedAdds := rj ++ rj2, evaluated := ev, puts := ps,
                queries := [q], aborted := true, gamesProcessed := 0 }
        | (none, rj2, ps) =>
          match runGames getVideo putRes ignore already_rejected q_counter rest with
          | .error e => .error e
          | .ok res =>
            .ok { cache := c ++ res.cache, rejected := rj ++ rj2 ++ res.rejected,
                  cacheAdds := c ++ res.cacheAdds,
                  rejectedAdds := rj ++ rj2 ++ res.rejectedAdds,
                  evaluated := ev ++ res.evaluated, puts := ps ++ res.puts,
                  queries := q :: res.queries, aborted := res.aborted,
                  gamesProcessed := res.gamesProcessed + 1 }

/-- One call of `CelesteLeaderboardBot.main`: run the game loop, then apply
the exception handlers' carry (`cache = list(set(cache + ignore))`,
`rejected = list(set(rejected + already_rejected))`) exactly when an
HTTP/connection error aborted the loop.  On normal completion `cache` and
`rejected` are exactly the appended ids. -/
def runCycle (q_counter : ℕ) (games : List Game)
    (ignore already_rejected : List String) (fetches : List FetchSpec)
    (getVideo : ℤ → Option String) (putRes : String → Option NetErr) :
    Except String CycleOutcome :=
  match runGames getVideo putRes ignore already_rejected q_counter
      (games.zip fetches) with
  | .error e => .error e
  | .ok res =>
    .ok { res with
          cache := if res.aborted then pyset (res.cache ++ ignore) else res.cache
          rejected :=
            if res.aborted then pyset (res.rejected ++ already_rejected)
            else res.rejected }

/-- `main` followed by the counter update `self.q_counter = (self.q_counter
+ 1) % len(QUERY_TABLE.keys())` (line 237), which runs on normal completion
and on an aborted cycle, but not when a `KeyError` escapes `main`. -/
def runCycleWithCounter (q_counter : ℕ) (games : List Game)
    (ignore already_rejected : List String) (fetches : List FetchSpec)
    (getVideo : ℤ → Option String) (putRes : String → Option NetErr) :
    Except String (CycleOutcome × ℕ) :=
  match runCycle q_counter games ignore already_rejected fetches getVideo putRes with
  | .error e => .error e
  | .ok o => .ok (o, (q_counter + 1) % QUERY_TABLE.length)

/-- All runs contained in successful fetches of the paired game list, in
order. -/
def fetchedRuns : List (Game × FetchSpec) → List Run
  | [] => []
  | (_, fs) :: rest =>
    (match fs.result with
     | .ok runs => runs
     | .error _ => []) ++ fetchedRuns rest

/-! ## Characterizations of the loops, used by the proofs -/

/-- The fault list `checkRun` returns when it succeeds (and `[]` when it
raises). -/
def faultsOf (game : Game) (getVideo : ℤ → Option String) (run : Run) :
    List SubmissionErrors :=
  match checkRun game getVideo run with
  | .error _ => []
  | .ok l => l

/-- The ids the inner loop appends to `cache`: every fetched id not already
rejected, in order. -/
def cacheIds (arj : List String) (runs : List Run) : List String :=
  (runs.filter (fun r => !arj.contains r.id)).map (fun r => r.id)

/-- The ids the inner loop appends to `rejected`: every fetched id already
in `already_rejected`, in order. -/
def rejIds (arj : List String) (runs : List Run) : List String :=
  (runs.filter (fun r => arj.contains r.id)).map (fun r => r.id)

/-- The ids whose runs reach the validity checks: fetched, not already
rejected, not seen last cycle. -/
def evalIds (ignore arj : List String) (runs : List Run) : List String :=
  (runs.filter (fun r => !arj.contains r.id && !ignore.contains r.id)).map
    (fun r => r.id)

/-- The `faulty_runs` list the inner loop builds. -/
def faultyList (game : Game) (getVideo : ℤ → Option String)
    (ignore arj : List String) (runs : List Run) :
    List (String × List SubmissionErrors) :=
  (runs.filter (fun r =>
      !arj.contains r.id && !ignore.contains r.id && isFaulty game getVideo r)).map
    (fun r => (r.id, faultsOf game getVideo r))

/-! ## Concrete fixtures used by counterexamples and witnesses -/

/-- A game configuration: version variable `"ver"`, default option `"v1"`,
option `"v0"` invalid on platform `"p"`. -/
def game0 : Game := { id := "g", version := ⟨"ver", "v1", [("p", ["v0"])]⟩ }

/-- A run with real-time submitted (exactly one fault), otherwise clean. -/
def runRta : Run :=
  { id := "r1", times := ⟨⟨1, 0⟩, ⟨17, 3⟩⟩, values := [("ver", "v2")],
    system := ⟨"p"⟩, videos := some ⟨[⟨"https://youtu.be/x"⟩]⟩ }

/-- A fully clean run (no faults). -/
def runClean : Run :=
  { id := "c1", times := ⟨⟨0, 0⟩, ⟨17, 3⟩⟩, values := [("ver", "v2")],
    system := ⟨"p"⟩, videos := some ⟨[⟨"https://youtu.be/x"⟩]⟩ }

/-- A run whose `videos` key is absent. -/
def noVideoRun : Run :=
  { id := "v1", times := ⟨⟨0, 0⟩, ⟨17, 3⟩⟩, values := [("ver", "v2")],
    system := ⟨"p"⟩, videos := none }

/-- A run whose `videos.links` entry is present but an empty list. -/
def emptyLinksRun : Run :=
  { id := "e1", times := ⟨⟨0, 0⟩, ⟨17, 3⟩⟩, values := [("ver", "v2")],
    system := ⟨"p"⟩, videos := some ⟨[]⟩ }

/-- A run without the game's version variable among its selected values. -/
def noVarRun : Run :=
  { id := "n1", times := ⟨⟨0, 0⟩, ⟨17, 3⟩⟩, values := [],
    system := ⟨"p"⟩, videos := some ⟨[]⟩ }

/-- A faulty run whose id sits in the prior rejected set of a witness. -/
def runB : Run :=
  { id := "b", times := ⟨⟨1, 0⟩, ⟨17, 3⟩⟩, values := [("ver", "v2")],
    system := ⟨"p"⟩, videos := some ⟨[]⟩ }

/-- Twitch oracle returning no video data. -/
def gvNone : ℤ → Option String := fun _ => none

/-- PUT oracle on which every reject call succeeds. -/
def prNone : String → Option NetErr := fun _ => none

/-- A successful fetch with fixed random draws. -/
def fsOk (runs : List Run) : FetchSpec := ⟨0, 1, 0, .ok runs⟩

/-- A fetch raising an HTTP error. -/
def fsErr : FetchSpec := ⟨0, 1, 0, .error .http⟩

/-- Reads the outcome out of a cycle result; used only at concrete inputs
where the cycle is known to succeed. -/
def outcomeOf (r : Except String CycleOutcome) : CycleOutcome :=
  r.toOption.getD default

/-- Outcome of a cycle whose one fetched run was seen last cycle. -/
def outSkip : CycleOutcome :=
  outcomeOf (runCycle 0 [game0] ["r1"] [] [fsOk [runRta]] gvNone prNone)

/-- Outcome of a cycle whose one fetched clean run is first observed. -/
def outFirst : CycleOutcome :=
  outcomeOf (runCycle 0 [game0] [] [] [fsOk [runClean]] gvNone prNone)

/-- Outcome of a cycle that re-fetches an already-rejected run. -/
def outRej : CycleOutcome :=
  outcomeOf (runCycle 0 [game0] [] ["b"] [fsOk [runB]] gvNone prNone)

/-- Outcome of a cycle aborted by an HTTP error on its first game. -/
def outAbort : CycleOutcome :=
  outcomeOf (runCycle 0 [game0, game0] ["a"] ["b"] [fsErr, fsOk []] gvNone
    prNone)

/-- Outcome of a successful cycle that fetched nothing. -/
def outEmpty : CycleOutcome :=
  outcomeOf (runCycle 0 [game0] ["old"] ["oldrej"] [fsOk []] gvNone prNone)

/-- Outcome of a cycle whose fetched list contains the same faulty run
twice. -/
def outDup : CycleOutcome :=
  outcomeOf (runCycle 0 [game0] [] [] [fsOk [runRta, runRta]] gvNone prNone)

/-! ## Loop characterization lemmas -/

lemma processRuns_ok_eq {game : Game} {gv : ℤ → Option String}
    {ignore arj : List String} {runs : List Run} {c rj ev : List String}
    {f : List (String × List SubmissionErrors)}
    (h : processRuns game gv ignore arj runs = .ok (c, rj, ev, f)) :
    c = cacheIds arj runs ∧ rj = rejIds arj runs ∧ ev = evalIds ignore arj runs
      ∧ f = faultyList game gv ignore arj runs := by
  induction runs generalizing c rj ev f with
  | nil =>
    simp only [processRuns, Except.ok.injEq, Prod.mk.injEq] at h
    obtain ⟨h1, h2, h3, h4⟩ := h
    simp [cacheIds, rejIds, evalIds, faultyList, h1.symm, h2.symm, h3.symm, h4.symm]
  | cons r rest ih =>
    simp only [processRuns] at h
    by_cases h1 : arj.contains r.id
    · simp only [h1, if_true] at h
      cases hrec : processRuns game gv ignore arj rest with
      | error e => rw [hrec] at h; exact absurd h (by simp)
      | ok q =>
        obtain ⟨c', rj', ev', f'⟩ := q
        rw [hrec] at h
        simp only [Except.ok.injEq, Prod.mk.injEq] at h
        obtain ⟨hc, hrj, hev, hf⟩ := h
        obtain ⟨ic, irj, iev, iff'⟩ := ih hrec
        subst hc hrj hev hf
        have h1' : r.id ∈ arj := by simpa using h1
        simp [cacheIds, rejIds, evalIds, faultyList, List.filter_cons, h1', ic,
          irj, iev, iff']
    · simp only [h1, if_false, Bool.false_eq_true] at h
      by_cases h2 : ignore.contains r.id
      · simp only [h2, if_true] at h
        cases hrec : processRuns game gv ignore arj rest with
        | error e => rw [hrec] at h; exact absurd h (by simp)
        | ok q =>
          obtain ⟨c', rj', ev', f'⟩ := q
          rw [hrec] at h
          simp only [Except.ok.injEq, Prod.mk.injEq] at h
          obtain ⟨hc, hrj, hev, hf⟩ := h
          obtain ⟨ic, irj, iev, iff'⟩ := ih hrec
          subst hc hrj hev hf
          have h1' : r.id ∉ arj := by simpa using h1
          have h2' : r.id ∈ ignore := by simpa using h2
          simp [cacheIds, rejIds, evalIds, faultyList, List.filter_cons, h1',
            h2', ic, irj, iev, iff']
      · simp only [h2, if_false, Bool.false_eq_true] at h
        cases hchk : checkRun game gv r with
        | error e => rw [hchk] at h; exact absurd h (by simp)
        | ok faults =>
          rw [hchk] at h
          cases hrec : processRuns game gv ignore arj rest with
          | error e => rw [hrec] at h; exact absurd h (by simp)
          | ok q =>
            obtain ⟨c', rj', ev', f'⟩ := q
            rw [hrec] at h
            simp only [Except.ok.injEq, Prod.mk.injEq] at h
            obtain ⟨hc, hrj, hev, hf⟩ := h
            obtain ⟨ic, irj, iev, iff'⟩ := ih hrec
            subst hc hrj hev
            have hfty : isFaulty game gv r = !faults.isEmpty := by
              simp [isFaulty, hchk]
            have hfof : faultsOf game gv r = faults := by
              simp [faultsOf, hchk]
            have h1' : r.id ∉ arj := by simpa using h1
            have h2' : r.id ∉ ignore := by simpa using h2
            constructor
            · simp [cacheIds, List.filter_cons, h1', ic]
            constructor
            · simp [rejIds, List.filter_cons, h1', irj]
            constructor
            · simp [evalIds, List.filter_cons, h1', h2', iev]
            · subst hf
              by_cases hlen : faults.length > 0
              · have hne : faults.isEmpty = false := by
                  cases faults with
                  | nil => simp at hlen
                  | cons a l => simp [List.isEmpty]
                simp [faultyList, List.filter_cons, h1', h2', hfty, hne, hlen,
                  hfof, iff']
              · have hnil : faults = [] := by
                  cases faults with
                  | nil => rfl
                  | cons a l => simp at hlen
                simp [faultyList, List.filter_cons, h1', h2', hfty, hnil, iff']

lemma processRuns_ok_of_no_error {game : Game} {gv : ℤ → Option String}
    {ignore arj : List String} {runs : List Run}
    (h : ∀ r ∈ runs, arj.contains r.id = false → ignore.contains r.id = false →
      ∃ l, checkRun game gv r = .ok l) :
    ∃ c rj ev f, processRuns game gv ignore arj runs = .ok (c, rj, ev, f) := by
  induction runs with
  | nil => exact ⟨[], [], [], [], rfl⟩
  | cons r rest ih =>
    obtain ⟨c, rj, ev, f, hrec⟩ := ih (fun r hr => h r (List.mem_cons_of_mem _ hr))
    simp only [processRuns]
    by_cases h1 : r.id ∈ arj
    · have h1' : arj.contains r.id = true := by simpa using h1
      exact ⟨c, r.id :: rj, ev, f, by simp [h1, h1', hrec]⟩
    · have h1' : arj.contains r.id = false := by simpa using h1
      by_cases h2 : r.id ∈ ignore
      · have h2' : ignore.contains r.id = true := by simpa using h2
        refine ⟨r.id :: c, rj, ev, f, ?_⟩
        simp [h1, h1', h2, h2', hrec]
      · have h2' : ignore.contains r.id = false := by simpa using h2
        obtain ⟨l, hl⟩ := h r (List.mem_cons_self _ _) h1' h2'
        refine ⟨r.id :: c, rj, r.id :: ev,
          if l.length > 0 then (r.id, l) :: f else f, ?_⟩
        simp [h1, h1', h2, h2', hl, hrec]

lemma processFaulty_none_eq {pr : String → Option NetErr}
    {f : List (String × List SubmissionErrors)} {rj2 : List String}
    {ps : List (String × String)}
    (h : processFaulty pr f = (none, rj2, ps)) :
    rj2 = f.map Prod.fst
      ∧ ps = f.map (fun p => (p.1, composeReason p.2)) := by
  induction f generalizing rj2 ps with
  | nil =>
    simp only [processFaulty, Prod.mk.injEq] at h
    simp [h.2.1.symm, h.2.2.symm]
  | cons p rest ih =>
    obtain ⟨id, faults⟩ := p
    simp only [processFaulty] at h
    cases hput : pr id with
    | some e => rw [hput] at h; simp at h
    | none =>
      rw [hput] at h
      cases hrec : processFaulty pr rest with
      | mk err q =>
        obtain ⟨rj', ps'⟩ := q
        rw [hrec] at h
        simp only [Prod.mk.injEq] at h
        obtain ⟨herr, hrj, hps⟩ := h
        subst herr
        obtain ⟨i1, i2⟩ := ih hrec
        simp [hrj.symm, hps.symm, i1, i2]

lemma processFaulty_puts_sub {pr : String → Option NetErr}
    {f : List (String × List SubmissionErrors)} {err : Option NetErr}
    {rj2 : List String} {ps : List (String × String)}
    (h : processFaulty pr f = (err, rj2, ps)) :
    (∀ x s, (x, s) ∈ ps → x ∈ rj2) ∧ (∀ x, x ∈ rj2 → ∃ fl, (x, fl) ∈ f) := by
  induction f generalizing err rj2 ps with
  | nil =>
    simp only [processFaulty, Prod.mk.injEq] at h
    obtain ⟨-, h2, h3⟩ := h
    subst h2 h3
    simp
  | cons p rest ih =>
    obtain ⟨id, faults⟩ := p
    simp only [processFaulty] at h
    cases hput : pr id with
    | some e =>
      rw [hput] at h
      simp only [Prod.mk.injEq] at h
      obtain ⟨-, h2, h3⟩ := h
      subst h2 h3
      simp
    | none =>
      rw [hput] at h
      cases hrec : processFaulty pr rest with
      | mk err' q =>
        obtain ⟨rj', ps'⟩ := q
        rw [hrec] at h
        simp only [Prod.mk.injEq] at h
        obtain ⟨-, h2, h3⟩ := h
        subst h2 h3
        obtain ⟨i1, i2⟩ := ih hrec
        constructor
        · intro x s hx
          rcases List.mem_cons.mp hx with hx | hx
          · have hx1 : x = id := (Prod.ext_iff.mp hx).1
            exact hx1 ▸ List.mem_cons_self _ _
          · exact List.mem_cons_of_mem _ (i1 x s hx)
        · intro x hx
          rcases List.mem_cons.mp hx with hx | hx
          · exact ⟨faults, by simp [hx]⟩
          · obtain ⟨fl, hfl⟩ := i2 x hx
            exact ⟨fl, List.mem_cons_of_mem _ hfl⟩

lemma mem_cacheIds {arj : List String} {runs : List Run} {x : String} :
    x ∈ cacheIds arj runs
      ↔ ∃ r, r ∈ runs ∧ r.id = x ∧ arj.contains x = false := by
  simp only [cacheIds, List.mem_map, List.mem_filter]
  constructor
  · rintro ⟨r, ⟨hr, hc⟩, rfl⟩
    exact ⟨r, hr, rfl, by simpa using hc⟩
  · rintro ⟨r, hr, rfl, hc⟩
    exact ⟨r, ⟨hr, by simpa using hc⟩, rfl⟩

lemma mem_rejIds {arj : List String} {runs : List Run} {x : String} :
    x ∈ rejIds arj runs
      ↔ ∃ r, r ∈ runs ∧ r.id = x ∧ arj.contains x = true := by
  simp only [rejIds, List.mem_map, List.mem_filter]
  constructor
  · rintro ⟨r, ⟨hr, hc⟩, rfl⟩
    exact ⟨r, hr, rfl, hc⟩
  · rintro ⟨r, hr, rfl, hc⟩
    exact ⟨r, ⟨hr, hc⟩, rfl⟩

lemma mem_evalIds {ignore arj : List String} {runs : List Run} {x : String} :
    x ∈ evalIds ignore arj runs
      ↔ ∃ r, r ∈ runs ∧ r.id = x ∧ arj.contains x = false
          ∧ ignore.contains x = false := by
  simp only [evalIds, List.mem_map, List.mem_filter, Bool.and_eq_true,
    Bool.not_eq_true']
  constructor
  · rintro ⟨r, ⟨hr, hc1, hc2⟩, rfl⟩
    exact ⟨r, hr, rfl, hc1, hc2⟩
  · rintro ⟨r, hr, rfl, hc1, hc2⟩
    exact ⟨r, ⟨hr, hc1, hc2⟩, rfl⟩

lemma mem_faultyList {game : Game} {gv : ℤ → Option String}
    {ignore arj : List String} {runs : List Run} {x : String}
    {fl : List SubmissionErrors} :
    (x, fl) ∈ faultyList game gv ignore arj runs
      ↔ ∃ r, r ∈ runs ∧ r.id = x ∧ faultsOf game gv r = fl
          ∧ arj.contains r.id = false ∧ ignore.contains r.id = false
          ∧ isFaulty game gv r = true := by
  simp only [faultyList, List.mem_map, List.mem_filter, Bool.and_eq_true,
    Bool.not_eq_true']
  constructor
  · rintro ⟨r, ⟨hr, ⟨hc1, hc2⟩, hc3⟩, heq⟩
    simp only [Prod.mk.injEq] at heq
    exact ⟨r, hr, heq.1, heq.2, hc1, hc2, hc3⟩
  · rintro ⟨r, hr, rfl, rfl, hc1, hc2, hc3⟩
    exact ⟨r, ⟨hr, ⟨hc1, hc2⟩, hc3⟩, rfl⟩

lemma runGames_nil_ok {gv : ℤ → Option String} {pr : String → Option NetErr}
    {ignore arj : List String} {qc : ℕ} {res : CycleOutcome}
    (h : runGames gv pr ignore arj qc [] = .ok res) :
    res = { cache := [], rejected := [], cacheAdds := [], rejectedAdds := [],
            evaluated := [], puts := [], queries := [], aborted := false,
            gamesProcessed := 0 } := by
  simp only [runGames, Except.ok.injEq] at h
  exact h.symm

lemma runGames_cons_ok {gv : ℤ → Option String} {pr : String → Option NetErr}
    {ignore arj : List String} {qc : ℕ} {game : Game} {fs : FetchSpec}
    {rest : List (Game × FetchSpec)} {res : CycleOutcome}
    (h : runGames gv pr ignore arj qc ((game, fs) :: rest) = .ok res) :
    (∃ e, fs.result = .error e
      ∧ res = { cache := [], rejected := [], cacheAdds := [],
                rejectedAdds := [], evaluated := [], puts := [],
                queries := [buildQuery qc fs.uNum fs.uDen fs.n],
                aborted := true, gamesProcessed := 0 })
    ∨ (∃ runs c rj ev f,
        fs.result = .ok runs
        ∧ processRuns game gv ignore arj runs = .ok (c, rj, ev, f)
        ∧ ((∃ e2 rj2 ps, processFaulty pr f = (some e2, rj2, ps)
              ∧ res = { cache := c, rejected := rj ++ rj2, cacheAdds := c,
                        rejectedAdds := rj ++ rj2, evaluated := ev, puts := ps,
                        queries := [buildQuery qc fs.uNum fs.uDen fs.n],
                        aborted := true, gamesProcessed := 0 })
          ∨ (∃ rj2 ps res2, processFaulty pr f = (none, rj2, ps)
              ∧ runGames gv pr ignore arj qc rest = .ok res2
              ∧ res = { cache := c ++ res2.cache,
                        rejected := rj ++ rj2 ++ res2.rejected,
                        cacheAdds := c ++ res2.cacheAdds,
                        rejectedAdds := rj ++ rj2 ++ res2.rejectedAdds,
                        evaluated := ev ++ res2.evaluated,
                        puts := ps ++ res2.puts,
                        queries :=
                          buildQuery qc fs.uNum fs.uDen fs.n :: res2.queries,
                        aborted := res2.aborted,
                        gamesProcessed := res2.gamesProcessed + 1 }))) := by
  cases hres : fs.result with
  | error e =>
    simp only [runGames, hres, Except.ok.injEq] at h
    exact Or.inl ⟨e, rfl, h.symm⟩
  | ok runs =>
    simp only [runGames, hres] at h
    cases hpr : processRuns game gv ignore arj runs with
    | error e =>
      simp only [hpr] at h
      exact absurd h (by simp)
    | ok q =>
      obtain ⟨c, rj, ev, f⟩ := q
      simp only [hpr] at h
      cases hpf : processFaulty pr f with
      | mk err q2 =>
        obtain ⟨rj2, ps⟩ := q2
        cases err with
        | some e2 =>
          simp only [hpf, Except.ok.injEq] at h
          exact Or.inr ⟨runs, c, rj, ev, f, rfl, hpr,
            Or.inl ⟨e2, rj2, ps, hpf, h.symm⟩⟩
        | none =>
          simp only [hpf] at h
          cases hrec : runGames gv pr ignore arj qc rest with
          | error e =>
            simp only [hrec] at h
            exact absurd h (by simp)
          | ok res2 =>
            simp only [hrec, Except.ok.injEq] at h
            exact Or.inr ⟨runs, c, rj, ev, f, rfl, hpr,
              Or.inr ⟨rj2, ps, res2, hpf, rfl, h.symm⟩⟩

lemma runCycle_ok_inv {qc : ℕ} {games : List Game} {ignore arj : List String}
    {fetches : List FetchSpec} {gv : ℤ → Option String}
    {pr : String → Option NetErr} {o : CycleOutcome}
    (h : runCycle qc games ignore arj fetches gv pr = .ok o) :
    ∃ res, runGames gv pr ignore arj qc (games.zip fetches) = .ok res
      ∧ o = { res with
              cache :=
                if res.aborted then pyset (res.cache ++ ignore) else res.cache
              rejected :=
                if res.aborted then pyset (res.rejected ++ arj)
                else res.rejected } := by
  cases hg : runGames gv pr ignore arj qc (games.zip fetches) with
  | error e =>
    simp only [runCycle, hg] at h
    exact absurd h (by simp)
  | ok res =>
    simp only [runCycle, hg, Except.ok.injEq] at h
    exact ⟨res, rfl, h.symm⟩

lemma buildQuery_props (qc uN uD n : ℕ) :
    (buildQuery qc uN uD n).orderby = QUERY_TABLE.getD qc ""
      ∧ ((buildQuery qc uN uD n).direction = "desc"
          ∨ (buildQuery qc uN uD n).direction = "asc")
      ∧ 100 ≤ (buildQuery qc uN uD n).maxsize
      ∧ (buildQuery qc uN uD n).maxsize ≤ 200 := by
  refine ⟨rfl, ?_, ?_, ?_⟩
  · by_cases hu : 2 * uN < uD
    · left; simp [buildQuery, hu]
    · right; simp [buildQuery, hu]
  · show 100 ≤ randint 100 200 n
    simp only [randint]
    omega
  · show randint 100 200 n ≤ 200
    simp only [randint]
    omega

lemma runGames_cache_eq_adds {gv : ℤ → Option String}
    {pr : String → Option NetErr} {ignore arj : List String} {qc : ℕ}
    {l : List (Game × FetchSpec)} {res : CycleOutcome}
    (h : runGames gv pr ignore arj qc l = .ok res) :
    res.cache = res.cacheAdds ∧ res.rejected = res.rejectedAdds := by
  induction l generalizing res with
  | nil => rw [runGames_nil_ok h]; exact ⟨rfl, rfl⟩
  | cons p rest ih =>
    obtain ⟨game, fs⟩ := p
    rcases runGames_cons_ok h with ⟨e, hres, rfl⟩
      | ⟨runs, c, rj, ev, f, hres, hpr, hcase⟩
    · exact ⟨rfl, rfl⟩
    · rcases hcase with ⟨e2, rj2, ps, hpf, rfl⟩ | ⟨rj2, ps, res2, hpf, hrec, rfl⟩
      · exact ⟨rfl, rfl⟩
      · obtain ⟨i1, i2⟩ := ih hrec
        constructor
        · show c ++ res2.cache = c ++ res2.cacheAdds
          rw [i1]
        · show rj ++ rj2 ++ res2.rejected = rj ++ rj2 ++ res2.rejectedAdds
          rw [i2]

lemma fetchedRuns_cons_ok (game : Game) (rest : List (Game × FetchSpec))
    {fs : FetchSpec} {runs : List Run} (hres : fs.result = .ok runs) :
    fetchedRuns ((game, fs) :: rest) = runs ++ fetchedRuns rest := by
  simp [fetchedRuns, hres]

lemma runGames_evaluated_sub {gv : ℤ → Option String}
    {pr : String → Option NetErr} {ignore arj : List String} {qc : ℕ}
    {l : List (Game × FetchSpec)} {res : CycleOutcome}
    (h : runGames gv pr ignore arj qc l = .ok res) :
    ∀ x ∈ res.evaluated, ∃ r, r ∈ fetchedRuns l ∧ r.id = x
      ∧ arj.contains x = false ∧ ignore.contains x = false := by
  induction l generalizing res with
  | nil => rw [runGames_nil_ok h]; intro x hx; simp at hx
  | cons p rest ih =>
    obtain ⟨game, fs⟩ := p
    rcases runGames_cons_ok h with ⟨e, hres, rfl⟩
      | ⟨runs, c, rj, ev, f, hres, hpr, hcase⟩
    · intro x hx; simp at hx
    · have hev : ev = evalIds ignore arj runs := (processRuns_ok_eq hpr).2.2.1
      have hfetch := fetchedRuns_cons_ok game rest hres
      rcases hcase with ⟨e2, rj2, ps, hpf, rfl⟩ | ⟨rj2, ps, res2, hpf, hrec, rfl⟩
      · intro x hx
        have hx2 : x ∈ ev := hx
        rw [hev] at hx2
        obtain ⟨r, hr, hid, h1, h2⟩ := mem_evalIds.mp hx2
        exact ⟨r, by rw [hfetch]; exact List.mem_append_left _ hr, hid, h1, h2⟩
      · intro x hx
        have hx2 : x ∈ ev ++ res2.evaluated := hx
        rcases List.mem_append.mp hx2 with hx | hx
        · rw [hev] at hx
          obtain ⟨r, hr, hid, h1, h2⟩ := mem_evalIds.mp hx
          exact ⟨r, by rw [hfetch]; exact List.mem_append_left _ hr, hid, h1, h2⟩
        · obtain ⟨r, hr, hid, h1, h2⟩ := ih hrec x hx
          exact ⟨r, by rw [hfetch]; exact List.mem_append_right _ hr, hid, h1, h2⟩

lemma runGames_evaluated_complete {gv : ℤ → Option String}
    {pr : String → Option NetErr} {ignore arj : List String} {qc : ℕ}
    {l : List (Game × FetchSpec)} {res : CycleOutcome}
    (h : runGames gv pr ignore arj qc l = .ok res)
    (hab : res.aborted = false) :
    ∀ r ∈ fetchedRuns l, arj.contains r.id = false →
      ignore.contains r.id = false → r.id ∈ res.evaluated := by
  induction l generalizing res with
  | nil =>
    rw [runGames_nil_ok h]
    intro r hr
    simp [fetchedRuns] at hr
  | cons p rest ih =>
    obtain ⟨game, fs⟩ := p
    rcases runGames_cons_ok h with ⟨e, hres, rfl⟩
      | ⟨runs, c, rj, ev, f, hres, hpr, hcase⟩
    · exact absurd hab (by simp)
    · rcases hcase with ⟨e2, rj2, ps, hpf, rfl⟩ | ⟨rj2, ps, res2, hpf, hrec, rfl⟩
      · exact absurd hab (by simp)
      · intro r hr h1 h2
        have hev : ev = evalIds ignore arj runs := (processRuns_ok_eq hpr).2.2.1
        have hab2 : res2.aborted = false := hab
        rw [fetchedRuns_cons_ok game rest hres] at hr
        show r.id ∈ ev ++ res2.evaluated
        rcases List.mem_append.mp hr with hr | hr
        · apply List.mem_append_left
          rw [hev]
          exact mem_evalIds.mpr ⟨r, hr, rfl, h1, h2⟩
        · exact List.mem_append_right _ (ih hrec hab2 r hr h1 h2)

lemma faultyList_id_mem_evalIds {game : Game} {gv : ℤ → Option String}
    {ignore arj : List String} {runs : List Run} {x : String}
    {fl : List SubmissionErrors}
    (h : (x, fl) ∈ faultyList game gv ignore arj runs) :
    x ∈ evalIds ignore arj runs := by
  obtain ⟨r, hr, hid, -, h1, h2, -⟩ := mem_faultyList.mp h
  exact mem_evalIds.mpr ⟨r, hr, hid, hid ▸ h1, hid ▸ h2⟩

lemma runGames_cache_sub {gv : ℤ → Option String}
    {pr : String → Option NetErr} {ignore arj : List String} {qc : ℕ}
    {l : List (Game × FetchSpec)} {res : CycleOutcome}
    (h : runGames gv pr ignore arj qc l = .ok res) :
    ∀ x ∈ res.cache, ∃ r, r ∈ fetchedRuns l ∧ r.id = x := by
  induction l generalizing res with
  | nil => rw [runGames_nil_ok h]; intro x hx; simp at hx
  | cons p rest ih =>
    obtain ⟨game, fs⟩ := p
    rcases runGames_cons_ok h with ⟨e, hres, rfl⟩
      | ⟨runs, c, rj, ev, f, hres, hpr, hcase⟩
    · intro x hx; simp at hx
    · have hc : c = cacheIds arj runs := (processRuns_ok_eq hpr).1
      have hfetch := fetchedRuns_cons_ok game rest hres
      rcases hcase with ⟨e2, rj2, ps, hpf, rfl⟩ | ⟨rj2, ps, res2, hpf, hrec, rfl⟩
      · intro x hx
        have hx2 : x ∈ c := hx
        rw [hc] at hx2
        obtain ⟨r, hr, hid, -⟩ := mem_cacheIds.mp hx2
        exact ⟨r, by rw [hfetch]; exact List.mem_append_left _ hr, hid⟩
      · intro x hx
        have hx2 : x ∈ c ++ res2.cache := hx
        rcases List.mem_append.mp hx2 with hx | hx
        · rw [hc] at hx
          obtain ⟨r, hr, hid, -⟩ := mem_cacheIds.mp hx
          exact ⟨r, by rw [hfetch]; exact List.mem_append_left _ hr, hid⟩
        · obtain ⟨r, hr, hid⟩ := ih hrec x hx
          exact ⟨r, by rw [hfetch]; exact List.mem_append_right _ hr, hid⟩

lemma runGames_rejected_sub {gv : ℤ → Option String}
    {pr : String → Option NetErr} {ignore arj : List String} {qc : ℕ}
    {l : List (Game × FetchSpec)} {res : CycleOutcome}
    (h : runGames gv pr ignore arj qc l = .ok res) :
    ∀ x ∈ res.rejected, ∃ r, r ∈ fetchedRuns l ∧ r.id = x := by
  induction l generalizing res with
  | nil => rw [runGames_nil_ok h]; intro x hx; simp at hx
  | cons p rest ih =>
    obtain ⟨game, fs⟩ := p
    rcases runGames_cons_ok h with ⟨e, hres, rfl⟩
      | ⟨runs, c, rj, ev, f, hres, hpr, hcase⟩
    · intro x hx; simp at hx
    · have hrj : rj = rejIds arj runs := (processRuns_ok_eq hpr).2.1
      have hf : f = faultyList game gv ignore arj runs :=
        (processRuns_ok_eq hpr).2.2.2
      have hfetch := fetchedRuns_cons_ok game rest hres
      have hfromRj : ∀ x ∈ rj, ∃ r, r ∈ fetchedRuns ((game, fs) :: rest)
          ∧ r.id = x := by
        intro x hx
        rw [hrj] at hx
        obtain ⟨r, hr, hid, -⟩ := mem_rejIds.mp hx
        exact ⟨r, by rw [hfetch]; exact List.mem_append_left _ hr, hid⟩
      have hfromRj2 : ∀ rj2 ps err, processFaulty pr f = (err, rj2, ps) →
          ∀ x ∈ rj2, ∃ r, r ∈ fetchedRuns ((game, fs) :: rest) ∧ r.id = x := by
        intro rj2 ps err hpf x hx
        obtain ⟨fl, hfl⟩ := (processFaulty_puts_sub hpf).2 x hx
        rw [hf] at hfl
        obtain ⟨r, hr, hid, -⟩ := mem_faultyList.mp hfl
        exact ⟨r, by rw [hfetch]; exact List.mem_append_left _ hr, hid⟩
      rcases hcase with ⟨e2, rj2, ps, hpf, rfl⟩ | ⟨rj2, ps, res2, hpf, hrec, rfl⟩
      · intro x hx
        have hx2 : x ∈ rj ++ rj2 := hx
        rcases List.mem_append.mp hx2 with hx | hx
        · exact hfromRj x hx
        · exact hfromRj2 rj2 ps _ hpf x hx
      · intro x hx
        have hx2 : x ∈ rj ++ rj2 ++ res2.rejected := hx
        rcases List.mem_append.mp hx2 with hx | hx
        · rcases List.mem_append.mp hx with hx | hx
          · exact hfromRj x hx
          · exact hfromRj2 rj2 ps _ hpf x hx
        · obtain ⟨r, hr, hid⟩ := ih hrec x hx
          exact ⟨r, by rw [hfetch]; exact List.mem_append_right _ hr, hid⟩

lemma runGames_arj_rejected {gv : ℤ → Option String}
    {pr : String → Option NetErr} {ignore arj : List String} {qc : ℕ}
    {l : List (Game × FetchSpec)} {res : CycleOutcome}
    (h : runGames gv pr ignore arj qc l = .ok res)
    (hab : res.aborted = false) :
    ∀ r ∈ fetchedRuns l, arj.contains r.id = true → r.id ∈ res.rejected := by
  induction l generalizing res with
  | nil =>
    rw [runGames_nil_ok h]
    intro r hr
    simp [fetchedRuns] at hr
  | cons p rest ih =>
    obtain ⟨game, fs⟩ := p
    rcases runGames_cons_ok h with ⟨e, hres, rfl⟩
      | ⟨runs, c, rj, ev, f, hres, hpr, hcase⟩
    · exact absurd hab (by simp)
    · rcases hcase with ⟨e2, rj2, ps, hpf, rfl⟩ | ⟨rj2, ps, res2, hpf, hrec, rfl⟩
      · exact absurd hab (by simp)
      · intro r hr h1
        have hrj : rj = rejIds arj runs := (processRuns_ok_eq hpr).2.1
        have hab2 : res2.aborted = false := hab
        rw [fetchedRuns_cons_ok game rest hres] at hr
        show r.id ∈ rj ++ rj2 ++ res2.rejected
        rcases List.mem_append.mp hr with hr | hr
        · apply List.mem_append_left
          apply List.mem_append_left
          rw [hrj]
          exact mem_rejIds.mpr ⟨r, hr, rfl, h1⟩
        · exact List.mem_append_right _ (ih hrec hab2 r hr h1)

lemma runGames_puts_rejected {gv : ℤ → Option String}
    {pr : String → Option NetErr} {ignore arj : List String} {qc : ℕ}
    {l : List (Game × FetchSpec)} {res : CycleOutcome}
    (h : runGames gv pr ignore arj qc l = .ok res) :
    ∀ x s, (x, s) ∈ res.puts → x ∈ res.rejected := by
  induction l generalizing res with
  | nil => rw [runGames_nil_ok h]; intro x s hx; simp at hx
  | cons p rest ih =>
    obtain ⟨game, fs⟩ := p
    rcases runGames_cons_ok h with ⟨e, hres, rfl⟩
      | ⟨runs, c, rj, ev, f, hres, hpr, hcase⟩
    · intro x s hx; simp at hx
    · rcases hcase with ⟨e2, rj2, ps, hpf, rfl⟩ | ⟨rj2, ps, res2, hpf, hrec, rfl⟩
      · intro x s hx
        have hx0 : (x, s) ∈ ps := hx
        have hx2 : x ∈ rj2 := (processFaulty_puts_sub hpf).1 x s hx0
        exact List.mem_append_right _ hx2
      · intro x s hx
        have hx0 : (x, s) ∈ ps ++ res2.puts := hx
        show x ∈ rj ++ rj2 ++ res2.rejected
        rcases List.mem_append.mp hx0 with hx1 | hx1
        · have hx2 : x ∈ rj2 := (processFaulty_puts_sub hpf).1 x s hx1
          exact List.mem_append_left _ (List.mem_append_right _ hx2)
        · exact List.mem_append_right _ (ih hrec x s hx1)

lemma runGames_puts_evaluated {gv : ℤ → Option String}
    {pr : String → Option NetErr} {ignore arj : List String} {qc : ℕ}
    {l : List (Game × FetchSpec)} {res : CycleOutcome}
    (h : runGames gv pr ignore arj qc l = .ok res) :
    ∀ x s, (x, s) ∈ res.puts → x ∈ res.evaluated := by
  induction l generalizing res with
  | nil => rw [runGames_nil_ok h]; intro x s hx; simp at hx
  | cons p rest ih =>
    obtain ⟨game, fs⟩ := p
    rcases runGames_cons_ok h with ⟨e, hres, rfl⟩
      | ⟨runs, c, rj, ev, f, hres, hpr, hcase⟩
    · intro x s hx; simp at hx
    · have hev : ev = evalIds ignore arj runs := (processRuns_ok_eq hpr).2.2.1
      have hf : f = faultyList game gv ignore arj runs :=
        (processRuns_ok_eq hpr).2.2.2
      have hstep : ∀ rj2 ps err, processFaulty pr f = (err, rj2, ps) →
          ∀ x s, (x, s) ∈ ps → x ∈ ev := by
        intro rj2 ps err hpf x s hx
        have hx2 : x ∈ rj2 := (processFaulty_puts_sub hpf).1 x s hx
        obtain ⟨fl, hfl⟩ := (processFaulty_puts_sub hpf).2 x hx2
        rw [hf] at hfl
        rw [hev]
        exact faultyList_id_mem_evalIds hfl
      rcases hcase with ⟨e2, rj2, ps, hpf, rfl⟩ | ⟨rj2, ps, res2, hpf, hrec, rfl⟩
      · intro x s hx
        exact hstep rj2 ps _ hpf x s hx
      · intro x s hx
        have hx0 : (x, s) ∈ ps ++ res2.puts := hx
        show x ∈ ev ++ res2.evaluated
        rcases List.mem_append.mp hx0 with hx1 | hx1
        · exact List.mem_append_left _ (hstep rj2 ps _ hpf x s hx1)
        · exact List.mem_append_right _ (ih hrec x s hx1)

lemma runGames_gamesProcessed {gv : ℤ → Option String}
    {pr : String → Option NetErr} {ignore arj : List String} {qc : ℕ}
    {l : List (Game × FetchSpec)} {res : CycleOutcome}
    (h : runGames gv pr ignore arj qc l = .ok res) :
    (res.aborted = false → res.gamesProcessed = l.length)
      ∧ (res.aborted = true → res.gamesProcessed < l.length) := by
  induction l generalizing res with
  | nil =>
    rw [runGames_nil_ok h]
    exact ⟨fun _ => rfl, fun hab => by simp at hab⟩
  | cons p rest ih =>
    obtain ⟨game, fs⟩ := p
    rcases runGames_cons_ok h with ⟨e, hres, rfl⟩
      | ⟨runs, c, rj, ev, f, hres, hpr, hcase⟩
    · exact ⟨fun hab => by simp at hab, fun _ => Nat.succ_pos _⟩
    · rcases hcase with ⟨e2, rj2, ps, hpf, rfl⟩ | ⟨rj2, ps, res2, hpf, hrec, rfl⟩
      · exact ⟨fun hab => by simp at hab, fun _ => Nat.succ_pos _⟩
      · obtain ⟨i1, i2⟩ := ih hrec
        constructor
        · intro hab
          have hab2 : res2.aborted = false := hab
          show res2.gamesProcessed + 1 = rest.length + 1
          rw [i1 hab2]
        · intro hab
          have hab2 : res2.aborted = true := hab
          show res2.gamesProcessed + 1 < rest.length + 1
          exact Nat.succ_lt_succ (i2 hab2)

lemma runGames_evaluated_take {gv : ℤ → Option String}
    {pr : String → Option NetErr} {ignore arj : List String} {qc : ℕ}
    {l : List (Game × FetchSpec)} {res : CycleOutcome}
    (h : runGames gv pr ignore arj qc l = .ok res) :
    ∀ x ∈ res.evaluated,
      ∃ r, r ∈ fetchedRuns (l.take (res.gamesProcessed + 1)) ∧ r.id = x := by
  induction l generalizing res with
  | nil => rw [runGames_nil_ok h]; intro x hx; simp at hx
  | cons p rest ih =>
    obtain ⟨game, fs⟩ := p
    rcases runGames_cons_ok h with ⟨e, hres, rfl⟩
      | ⟨runs, c, rj, ev, f, hres, hpr, hcase⟩
    · intro x hx; simp at hx
    · have hev : ev = evalIds ignore arj runs := (processRuns_ok_eq hpr).2.2.1
      rcases hcase with ⟨e2, rj2, ps, hpf, rfl⟩ | ⟨rj2, ps, res2, hpf, hrec, rfl⟩
      · intro x hx
        have hx2 : x ∈ ev := hx
        rw [hev] at hx2
        obtain ⟨r, hr, hid, -, -⟩ := mem_evalIds.mp hx2
        refine ⟨r, ?_, hid⟩
        show r ∈ fetchedRuns (((game, fs) :: rest).take (0 + 1))
        simp [fetchedRuns, hres, hr]
      · intro x hx
        have hx2 : x ∈ ev ++ res2.evaluated := hx
        rcases List.mem_append.mp hx2 with hx | hx
        · rw [hev] at hx
          obtain ⟨r, hr, hid, -, -⟩ := mem_evalIds.mp hx
          refine ⟨r, ?_, hid⟩
          show r ∈ fetchedRuns (((game, fs) :: rest).take (res2.gamesProcessed + 1 + 1))
          rw [List.take_succ_cons,
            fetchedRuns_cons_ok game (rest.take (res2.gamesProcessed + 1)) hres]
          exact List.mem_append_left _ hr
        · obtain ⟨r, hr, hid⟩ := ih hrec x hx
          refine ⟨r, ?_, hid⟩
          show r ∈ fetchedRuns (((game, fs) :: rest).take (res2.gamesProcessed + 1 + 1))
          rw [List.take_succ_cons,
            fetchedRuns_cons_ok game (rest.take (res2.gamesProcessed + 1)) hres]
          exact List.mem_append_right _ hr

lemma runGames_queries {gv : ℤ → Option String}
    {pr : String → Option NetErr} {ignore arj : List String} {qc : ℕ}
    {l : List (Game × FetchSpec)} {res : CycleOutcome}
    (h : runGames gv pr ignore arj qc l = .ok res) :
    ∀ q ∈ res.queries, q.orderby = QUERY_TABLE.getD qc ""
      ∧ (q.direction = "desc" ∨ q.direction = "asc")
      ∧ 100 ≤ q.maxsize ∧ q.maxsize ≤ 200 := by
  induction l generalizing res with
  | nil => rw [runGames_nil_ok h]; intro q hq; simp at hq
  | cons p rest ih =>
    obtain ⟨game, fs⟩ := p
    rcases runGames_cons_ok h with ⟨e, hres, rfl⟩
      | ⟨runs, c, rj, ev, f, hres, hpr, hcase⟩
    · intro q hq
      have : q = buildQuery qc fs.uNum fs.uDen fs.n := by simpa using hq
      rw [this]
      exact buildQuery_props qc fs.uNum fs.uDen fs.n
    · rcases hcase with ⟨e2, rj2, ps, hpf, rfl⟩ | ⟨rj2, ps, res2, hpf, hrec, rfl⟩
      · intro q hq
        have : q = buildQuery qc fs.uNum fs.uDen fs.n := by simpa using hq
        rw [this]
        exact buildQuery_props qc fs.uNum fs.uDen fs.n
      · intro q hq
        rcases List.mem_cons.mp hq with hq | hq
        · rw [hq]
          exact buildQuery_props qc fs.uNum fs.uDen fs.n
        · exact ih hrec q hq


lemma checkRun_faults_eq {game : Game} {gv : ℤ → Option String} {run : Run}
    {faults : List SubmissionErrors}
    (h : checkRun game gv run = .ok faults) :
    ∃ vdv, valid_default_version run game.version.variable_id
        game.version.default_ver = .ok vdv
      ∧ faults =
        (if valid_real_time run then [] else [.ERROR_SUBMITTED_RTA])
          ++ (if vdv then [] else [.ERROR_NO_VERSION])
          ++ (if valid_in_game_time run then [] else [.ERROR_INVALID_IGT])
          ++ (if valid_existing_version run game.version.variable_id
                game.version.invalid_ver then [] else [.ERROR_INVALID_VERSION])
          ++ (if valid_persistent_vod run gv then [] else [.ERROR_BAD_VOD]) := by
  simp only [checkRun] at h
  cases hdv : valid_default_version run game.version.variable_id
      game.version.default_ver with
  | error e =>
    simp only [hdv] at h
    exact absurd h (by simp)
  | ok vdv =>
    simp only [hdv, Except.ok.injEq] at h
    exact ⟨vdv, rfl, h.symm⟩

lemma mem_if_singleton {a b : SubmissionErrors} {cond : Bool} :
    (a ∈ if cond then ([] : List SubmissionErrors) else [b])
      ↔ (cond = false ∧ a = b) := by
  cases cond <;> simp

lemma countP_evalIds {ignore arj : List String} {runs : List Run} {x : String}
    (hi : ignore.contains x = false) (ha : arj.contains x = false) :
    (evalIds ignore arj runs).countP (fun y => y == x)
      = runs.countP (fun r => r.id == x) := by
  simp only [evalIds, List.countP_map, List.countP_filter]
  apply List.countP_congr
  intro r hr
  by_cases hid : r.id = x
  · rw [hid]
    have ha2 : x ∉ arj := by simpa using ha
    have hi2 : x ∉ ignore := by simpa using hi
    simp [Function.comp, hid, ha2, hi2]
  · have h0 : (r.id == x) = false := by simpa using hid
    simp [Function.comp, h0]

lemma countP_faultyList {game : Game} {gv : ℤ → Option String}
    {ignore arj : List String} {runs : List Run} {x : String}
    (hi : ignore.contains x = false) (ha : arj.contains x = false) :
    (faultyList game gv ignore arj runs).countP (fun p => p.1 == x)
      = runs.countP (fun r => r.id == x && isFaulty game gv r) := by
  simp only [faultyList, List.countP_map, List.countP_filter]
  apply List.countP_congr
  intro r hr
  by_cases hid : r.id = x
  · rw [hid]
    have ha2 : x ∉ arj := by simpa using ha
    have hi2 : x ∉ ignore := by simpa using hi
    simp [Function.comp, hid, ha2, hi2]
  · have h0 : (r.id == x) = false := by simpa using hid
    simp [Function.comp, h0]

/-! ## The claims -/

/-- C1, counterexample.  The claim says a submission present in neither the
prior `seen` set nor the prior `rejected` set is not evaluated and not
rejected in the cycle where it is first observed.  In the code the `ignore`
check only skips ids cached in the previous cycle, so a first-observed
faulty run is evaluated and rejected immediately: here the first cycle
evaluates `"r1"` and issues a reject PUT for it. -/
theorem c1_counterexample :
    (runCycle 0 [game0] [] [] [fsOk [runRta]] gvNone prNone).map
        (fun o => (o.evaluated, o.puts.map Prod.fst, o.aborted))
      = .ok (["r1"], ["r1"], false) := by rfl

/-- C1, amended: ids in the prior cycle's `seen` set (`ignore`) are the ones
skipped — they are never evaluated and never rejected in the current cycle —
while a first-observed id (in neither prior set) is evaluated in the very
cycle it is first observed, provided the cycle completes without abort. -/
theorem c1_first_cycle_evaluation :
    ∀ (qc : ℕ) (games : List Game) (ignore arj : List String)
      (fetches : List FetchSpec) (gv : ℤ → Option String)
      (pr : String → Option NetErr) (o : CycleOutcome),
      runCycle qc games ignore arj fetches gv pr = .ok o →
      (∀ x, ignore.contains x = true →
        x ∉ o.evaluated ∧ ∀ s, (x, s) ∉ o.puts)
      ∧ (o.aborted = false →
          ∀ r, r ∈ fetchedRuns (games.zip fetches) →
            arj.contains r.id = false → ignore.contains r.id = false →
            r.id ∈ o.evaluated) := by
  intro qc games ignore arj fetches gv pr o h
  obtain ⟨res, hg, rfl⟩ := runCycle_ok_inv h
  constructor
  · intro x hx
    have hev : x ∉ res.evaluated := by
      intro hmem
      obtain ⟨r, -, -, -, h2⟩ := runGames_evaluated_sub hg x hmem
      rw [hx] at h2
      exact Bool.noConfusion h2
    exact ⟨hev, fun s hs => hev (runGames_puts_evaluated hg x s hs)⟩
  · intro hab r hr h1 h2
    exact runGames_evaluated_complete hg hab r hr h1 h2

/-- C1, witness: with `"r1"` in the prior seen set the cycle does not
evaluate it; a first-observed clean run `"c1"` is evaluated in its first
cycle. -/
theorem c1_first_cycle_evaluation_witness :
    "r1" ∉ outSkip.evaluated ∧ "c1" ∈ outFirst.evaluated := by
  have h1 := (c1_first_cycle_evaluation 0 [game0] ["r1"] [] [fsOk [runRta]]
    gvNone prNone outSkip rfl).1 "r1" rfl
  have h2 := (c1_first_cycle_evaluation 0 [game0] [] [] [fsOk [runClean]]
    gvNone prNone outFirst rfl).2 rfl runClean (by decide) rfl rfl
  exact ⟨h1.1, h2⟩

/-- C2: an id in the previous cycle's rejected set that is fetched again is
never evaluated, never re-submitted to the reject call, and still appears in
the rejected set returned for the next cycle. -/
theorem c2_already_rejected_skip :
    ∀ (qc : ℕ) (games : List Game) (ignore arj : List String)
      (fetches : List FetchSpec) (gv : ℤ → Option String)
      (pr : String → Option NetErr) (o : CycleOutcome) (x : String),
      runCycle qc games ignore arj fetches gv pr = .ok o →
      arj.contains x = true →
      (∃ r, r ∈ fetchedRuns (games.zip fetches) ∧ r.id = x) →
      x ∉ o.evaluated ∧ (∀ s, (x, s) ∉ o.puts) ∧ x ∈ o.rejected := by
  intro qc games ignore arj fetches gv pr o x h harj hfetch
  obtain ⟨res, hg, rfl⟩ := runCycle_ok_inv h
  have hev : x ∉ res.evaluated := by
    intro hmem
    obtain ⟨r, -, -, h1, -⟩ := runGames_evaluated_sub hg x hmem
    rw [harj] at h1
    exact Bool.noConfusion h1
  refine ⟨hev, fun s hs => hev (runGames_puts_evaluated hg x s hs), ?_⟩
  show x ∈ (if res.aborted then pyset (res.rejected ++ arj) else res.rejected)
  cases hab : res.aborted with
  | true =>
    have hx : x ∈ arj := by simpa using harj
    simp [pyset, hx]
  | false =>
    obtain ⟨r, hr, hid⟩ := hfetch
    have hmem := runGames_arj_rejected hg hab r hr (by rw [hid]; exact harj)
    simpa [hid] using hmem

/-- C2, witness: the already-rejected id `"b"`, fetched again, is not
evaluated and is carried in the returned rejected set. -/
theorem c2_already_rejected_skip_witness :
    "b" ∉ outRej.evaluated ∧ "b" ∈ outRej.rejected := by
  have h := c2_already_rejected_skip 0 [game0] [] ["b"] [fsOk [runB]] gvNone
    prNone outRej "b" rfl rfl ⟨runB, by decide, rfl⟩
  exact ⟨h.1, h.2.2⟩

/-- C3, counterexample.  The claim says an empty or absent `video_links`
sequence makes `valid_persistent_vod` return invalid.  A run whose
`videos.links` key is present but an empty list raises no `KeyError`, finds
no Twitch link, and the predicate returns valid (`true`), not `false`. -/
theorem c3_counterexample :
    ¬ (valid_persistent_vod emptyLinksRun gvNone = false) := by decide

/-- C3, amended: only an absent `videos`/`links` key (the `KeyError` path)
is fail-closed — the predicate returns invalid and the fault
`ERROR_BAD_VOD` is recorded; a present but empty link list finds no Twitch
link and is treated as valid. -/
theorem c3_vod_missing_vs_empty :
    ∀ (run : Run) (gv : ℤ → Option String),
      (run.videos = none → valid_persistent_vod run gv = false)
      ∧ (run.videos = some ⟨[]⟩ → valid_persistent_vod run gv = true)
      ∧ (∀ (game : Game) (faults : List SubmissionErrors),
          run.videos = none → checkRun game gv run = .ok faults →
          SubmissionErrors.ERROR_BAD_VOD ∈ faults) := by
  intro run gv
  refine ⟨?_, ?_, ?_⟩
  · intro hv
    simp [valid_persistent_vod, hv]
  · intro hv
    simp [valid_persistent_vod, hv]
  · intro game faults hv hchk
    have hvp : valid_persistent_vod run gv = false := by
      simp [valid_persistent_vod, hv]
    obtain ⟨vdv, -, rfl⟩ := checkRun_faults_eq hchk
    simp [hvp]

/-- C3, witness: the two branches at concrete runs, and the recorded fault
for the absent-key run. -/
theorem c3_vod_missing_vs_empty_witness :
    valid_persistent_vod noVideoRun gvNone = false
      ∧ valid_persistent_vod emptyLinksRun gvNone = true
      ∧ SubmissionErrors.ERROR_BAD_VOD ∈ [SubmissionErrors.ERROR_BAD_VOD] := by
  refine ⟨(c3_vod_missing_vs_empty noVideoRun gvNone).1 rfl,
    (c3_vod_missing_vs_empty emptyLinksRun gvNone).2.1 rfl,
    (c3_vod_missing_vs_empty noVideoRun gvNone).2.2 game0
      [SubmissionErrors.ERROR_BAD_VOD] rfl (by rfl)⟩

/-- C4, counterexample.  The claim says both version rules are skipped
defensively when the game's `variable_id` is missing from a submission's
selected values.  In the code only `valid_existing_version` has the
`try`/`except KeyError`; `valid_default_version` raises, and since `main`
catches only HTTP and connection errors the exception escapes — the whole
cycle errors out instead of skipping the rule. -/
theorem c4_counterexample :
    valid_default_version noVarRun "ver" "v1" = .error "ver"
      ∧ runCycle 0 [game0] [] [] [fsOk [noVarRun]] gvNone prNone
          = .error "ver" := by
  exact ⟨rfl, rfl⟩

/-- C4, amended: when `variable_id` is missing from a run's values,
`valid_existing_version` catches the `KeyError` and falls back to valid,
but `valid_default_version` raises a `KeyError` that escapes the
predicate. -/
theorem c4_version_rule_defensiveness :
    ∀ (run : Run) (variable_id default_ver : String)
      (invalid_ver : List (String × List String)),
      run.values.lookup variable_id = none →
      valid_default_version run variable_id default_ver = .error variable_id
        ∧ valid_existing_version run variable_id invalid_ver = true := by
  intro run v d inv h
  constructor
  · simp [valid_default_version, h]
  · simp [valid_existing_version, h]

/-- C4, witness: both conclusions at the concrete run with no selected
version variable. -/
theorem c4_version_rule_defensiveness_witness :
    valid_default_version noVarRun "ver" "v1" = .error "ver"
      ∧ valid_existing_version noVarRun "ver" [] = true :=
  c4_version_rule_defensiveness noVarRun "ver" "v1" [] rfl

/-- C5: an HTTP/connection failure aborts the remaining games of the cycle
(the count of completed games is strictly below the number of configured
game/fetch pairs, and every evaluated id comes from the games up to and
including the failing one), and the carried state is the set union of the
previous `seen`/`rejected` sets with the ids accumulated so far; every
reject PUT issued before the failure is reflected in the carried rejected
set. -/
theorem c5_abort_preserves_state :
    ∀ (qc : ℕ) (games : List Game) (ignore arj : List String)
      (fetches : List FetchSpec) (gv : ℤ → Option String)
      (pr : String → Option NetErr) (o : CycleOutcome),
      runCycle qc games ignore arj fetches gv pr = .ok o →
      o.aborted = true →
      o.gamesProcessed < (games.zip fetches).length
      ∧ (∀ x, x ∈ o.cache ↔ x ∈ o.cacheAdds ∨ x ∈ ignore)
      ∧ (∀ x, x ∈ o.rejected ↔ x ∈ o.rejectedAdds ∨ x ∈ arj)
      ∧ (∀ x s, (x, s) ∈ o.puts → x ∈ o.rejected)
      ∧ (∀ x ∈ o.evaluated,
          ∃ r, r ∈ fetchedRuns ((games.zip fetches).take (o.gamesProcessed + 1))
            ∧ r.id = x) := by
  intro qc games ignore arj fetches gv pr o h hab
  obtain ⟨res, hg, rfl⟩ := runCycle_ok_inv h
  have hab2 : res.aborted = true := hab
  obtain ⟨hc1, hc2⟩ := runGames_cache_eq_adds hg
  refine ⟨(runGames_gamesProcessed hg).2 hab2, ?_, ?_, ?_, ?_⟩
  · intro x
    show x ∈ (if res.aborted then pyset (res.cache ++ ignore) else res.cache)
      ↔ x ∈ res.cacheAdds ∨ x ∈ ignore
    simp [hab2, pyset, hc1]
  · intro x
    show x ∈ (if res.aborted then pyset (res.rejected ++ arj) else res.rejected)
      ↔ x ∈ res.rejectedAdds ∨ x ∈ arj
    simp [hab2, pyset, hc2]
  · intro x s hs
    have hx : x ∈ res.rejected := runGames_puts_rejected hg x s hs
    show x ∈ (if res.aborted then pyset (res.rejected ++ arj) else res.rejected)
    simp [hab2, pyset]
    exact Or.inl hx
  · intro x hx
    exact runGames_evaluated_take hg x hx

/-- C5, witness: the cycle whose first game's fetch raises an HTTP error
completes zero of its two games, and the prior seen id `"a"` is carried
forward by union. -/
theorem c5_abort_preserves_state_witness :
    outAbort.gamesProcessed < 2
      ∧ ("a" ∈ outAbort.cache ↔ "a" ∈ outAbort.cacheAdds ∨ "a" ∈ ["a"]) := by
  have h := c5_abort_preserves_state 0 [game0, game0] ["a"] ["b"]
    [fsErr, fsOk []] gvNone prNone outAbort rfl rfl
  exact ⟨h.1, h.2.1 "a"⟩

/-- C6, counterexample.  The claim says every cycle, including successful
ones, carries the previous seen and rejected sets forward by union.  A
successful cycle that does not re-fetch the previously seen id `"old"` or
the previously rejected id `"oldrej"` drops both: the union happens only
in the exception handlers. -/
theorem c6_counterexample :
    (runCycle 0 [game0] ["old"] ["oldrej"] [fsOk []] gvNone prNone).map
        (fun o => (o.aborted, decide ("old" ∈ o.cache),
          decide ("oldrej" ∈ o.rejected)))
      = .ok (false, false, false) := by rfl

/-- C6, amended: the set-union merge happens only on cycles aborted by an
HTTP/connection failure; a cycle that completes without error returns
exactly the ids appended during the cycle — every carried id was fetched
this cycle, so previous ids not re-listed are dropped. -/
theorem c6_carry_forward :
    ∀ (qc : ℕ) (games : List Game) (ignore arj : List String)
      (fetches : List FetchSpec) (gv : ℤ → Option String)
      (pr : String → Option NetErr) (o : CycleOutcome),
      runCycle qc games ignore arj fetches gv pr = .ok o →
      (o.aborted = false →
        o.cache = o.cacheAdds ∧ o.rejected = o.rejectedAdds
        ∧ (∀ x ∈ o.cache, ∃ r, r ∈ fetchedRuns (games.zip fetches) ∧ r.id = x)
        ∧ (∀ x ∈ o.rejected,
            ∃ r, r ∈ fetchedRuns (games.zip fetches) ∧ r.id = x))
      ∧ (o.aborted = true →
        (∀ x, x ∈ o.cache ↔ x ∈ o.cacheAdds ∨ x ∈ ignore)
        ∧ (∀ x, x ∈ o.rejected ↔ x ∈ o.rejectedAdds ∨ x ∈ arj)) := by
  intro qc games ignore arj fetches gv pr o h
  obtain ⟨res, hg, rfl⟩ := runCycle_ok_inv h
  obtain ⟨hc1, hc2⟩ := runGames_cache_eq_adds hg
  constructor
  · intro hab
    have hab2 : res.aborted = false := hab
    refine ⟨?_, ?_, ?_, ?_⟩
    · show (if res.aborted then pyset (res.cache ++ ignore) else res.cache)
        = res.cacheAdds
      simp [hab2, hc1]
    · show (if res.aborted then pyset (res.rejected ++ arj) else res.rejected)
        = res.rejectedAdds
      simp [hab2, hc2]
    · intro x hx
      have hx2 : x ∈ res.cache := by
        have : x ∈ (if res.aborted then pyset (res.cache ++ ignore)
            else res.cache) := hx
        simpa [hab2] using this
      exact runGames_cache_sub hg x hx2
    · intro x hx
      have hx2 : x ∈ res.rejected := by
        have : x ∈ (if res.aborted then pyset (res.rejected ++ arj)
            else res.rejected) := hx
        simpa [hab2] using this
      exact runGames_rejected_sub hg x hx2
  · intro hab
    have hab2 : res.aborted = true := hab
    constructor
    · intro x
      show x ∈ (if res.aborted then pyset (res.cache ++ ignore) else res.cache)
        ↔ x ∈ res.cacheAdds ∨ x ∈ ignore
      simp [hab2, pyset, hc1]
    · intro x
      show x ∈ (if res.aborted then pyset (res.rejected ++ arj)
          else res.rejected) ↔ x ∈ res.rejectedAdds ∨ x ∈ arj
      simp [hab2, pyset, hc2]

/-- C6, witness: the successful empty-fetch cycle returns exactly its
appended ids (no union applied). -/
theorem c6_carry_forward_witness :
    outEmpty.cache = outEmpty.cacheAdds
      ∧ outEmpty.rejected = outEmpty.rejectedAdds := by
  have h := (c6_carry_forward 0 [game0] ["old"] ["oldrej"] [fsOk []] gvNone
    prNone outEmpty rfl).1 rfl
  exact ⟨h.1, h.2.1⟩

/-- C7: the rejection reason for one fault is the singular prefix followed
by exactly that fault's explanation; for two faults the plural prefix
followed by the two explanations joined by `" || "` in fault order; for
three or more faults the fixed generic manual-review message, whatever the
faults are. -/
theorem c7_compose_reason :
    ∀ faults : List SubmissionErrors, faults ≠ [] →
      composeReason faults =
        match faults with
        | [f] => BASE_REASON "" ++ REASON_TEXT f
        | [f, g] => BASE_REASON "s" ++ (REASON_TEXT f ++ " || " ++ REASON_TEXT g)
        | _ => GENERIC_REASON := by
  intro faults hne
  match faults with
  | [] => exact absurd rfl hne
  | [f] => rfl
  | [f, g] => rfl
  | f1 :: f2 :: f3 :: rest =>
    show composeReason (f1 :: f2 :: f3 :: rest) = GENERIC_REASON
    have h3 : ¬ (f1 :: f2 :: f3 :: rest).length < 3 := by
      simp only [List.length_cons]
      omega
    simp [composeReason, h3]

/-- C7, witness: the three phrasings at concrete fault lists. -/
theorem c7_compose_reason_witness :
    composeReason [SubmissionErrors.ERROR_SUBMITTED_RTA]
        = BASE_REASON "" ++ REASON_TEXT SubmissionErrors.ERROR_SUBMITTED_RTA
      ∧ composeReason [SubmissionErrors.ERROR_SUBMITTED_RTA,
          SubmissionErrors.ERROR_NO_VERSION]
        = BASE_REASON "s"
            ++ (REASON_TEXT SubmissionErrors.ERROR_SUBMITTED_RTA ++ " || "
              ++ REASON_TEXT SubmissionErrors.ERROR_NO_VERSION)
      ∧ composeReason [SubmissionErrors.ERROR_SUBMITTED_RTA,
          SubmissionErrors.ERROR_NO_VERSION,
          SubmissionErrors.ERROR_INVALID_IGT] = GENERIC_REASON := by
  refine ⟨c7_compose_reason [SubmissionErrors.ERROR_SUBMITTED_RTA] (by simp),
    c7_compose_reason [SubmissionErrors.ERROR_SUBMITTED_RTA,
      SubmissionErrors.ERROR_NO_VERSION] (by simp),
    c7_compose_reason [SubmissionErrors.ERROR_SUBMITTED_RTA,
      SubmissionErrors.ERROR_NO_VERSION,
      SubmissionErrors.ERROR_INVALID_IGT] (by simp)⟩

/-- C8: the in-game-time rule is valid exactly when the submitted IGT in
integer milliseconds is divisible by 17, and a successfully checked
submission carries the fault `ERROR_INVALID_IGT` exactly when it is not.
The predicate is a total boolean function of the run (pure arithmetic). -/
theorem c8_igt_rule :
    ∀ (game : Game) (gv : ℤ → Option String) (run : Run)
      (faults : List SubmissionErrors),
      checkRun game gv run = .ok faults →
      (valid_in_game_time run = true
          ↔ (17 : ℤ) ∣ run.times.ingame_t.millis)
      ∧ (SubmissionErrors.ERROR_INVALID_IGT ∈ faults
          ↔ ¬ (17 : ℤ) ∣ run.times.ingame_t.millis) := by
  intro game gv run faults hchk
  have hiff : valid_in_game_time run = true
      ↔ (17 : ℤ) ∣ run.times.ingame_t.millis := by
    simp only [valid_in_game_time, beq_iff_eq]
    omega
  refine ⟨hiff, ?_⟩
  obtain ⟨vdv, -, rfl⟩ := checkRun_faults_eq hchk
  simp only [List.mem_append, mem_if_singleton]
  constructor
  · rintro ((((⟨-, hA⟩ | ⟨-, hB⟩) | ⟨hC, -⟩) | ⟨-, hD⟩) | ⟨-, hE⟩)
    · exact absurd hA (by decide)
    · exact absurd hB (by decide)
    · intro hd
      rw [hiff.mpr hd] at hC
      exact Bool.noConfusion hC
    · exact absurd hD (by decide)
    · exact absurd hE (by decide)
  · intro hnd
    have hx : valid_in_game_time run = false := by
      cases hvv : valid_in_game_time run
      · rfl
      · exact absurd (hiff.mp hvv) hnd
    exact Or.inl (Or.inl (Or.inr ⟨hx, trivial⟩))

/-- C8, witness: the checked run with IGT 17 ms has no IGT fault. -/
theorem c8_igt_rule_witness :
    SubmissionErrors.ERROR_INVALID_IGT ∈ [SubmissionErrors.ERROR_SUBMITTED_RTA]
      ↔ ¬ (17 : ℤ) ∣ runRta.times.ingame_t.millis :=
  (c8_igt_rule game0 gvNone runRta [SubmissionErrors.ERROR_SUBMITTED_RTA]
    (by rfl)).2

/-- C9: the query table holds exactly 10 distinct sort fields; a completed
(or aborted) cycle advances the counter by exactly one modulo 10; every
query built during one cycle uses the same sort field
`QUERY_TABLE[q_counter]`, one of the two sort directions, and a page size in
`[100, 200]`; the page size is drawn uniformly (each size in `[100, 200]`
comes from exactly one residue of the uniform source below 101) and the
direction is `"desc"` exactly when the `random()` sample is below one
half. -/
theorem c9_query_rotation :
    (QUERY_TABLE.length = 10 ∧ QUERY_TABLE.Nodup)
    ∧ (∀ (qc : ℕ) (games : List Game) (ignore arj : List String)
        (fetches : List FetchSpec) (gv : ℤ → Option String)
        (pr : String → Option NetErr) (o : CycleOutcome) (qc2 : ℕ),
        runCycleWithCounter qc games ignore arj fetches gv pr = .ok (o, qc2) →
        qc2 = (qc + 1) % 10
        ∧ ∀ q ∈ o.queries, q.orderby = QUERY_TABLE.getD qc ""
            ∧ (q.direction = "desc" ∨ q.direction = "asc")
            ∧ 100 ≤ q.maxsize ∧ q.maxsize ≤ 200)
    ∧ (∀ s : ℕ, 100 ≤ s → s ≤ 200 →
        ∃! n : ℕ, n < 101 ∧ randint 100 200 n = s)
    ∧ (∀ (qc uN uD n : ℕ),
        (buildQuery qc uN uD n).direction = "desc" ↔ 2 * uN < uD) := by
  refine ⟨by decide, ?_, ?_, ?_⟩
  · intro qc games ignore arj fetches gv pr o qc2 h
    cases hc : runCycle qc games ignore arj fetches gv pr with
    | error e =>
      simp only [runCycleWithCounter, hc] at h
      exact absurd h (by simp)
    | ok o2 =>
      simp only [runCycleWithCounter, hc, Except.ok.injEq, Prod.mk.injEq] at h
      obtain ⟨ho, hq⟩ := h
      subst ho
      refine ⟨hq.symm, ?_⟩
      obtain ⟨res, hg, rfl⟩ := runCycle_ok_inv hc
      intro q hq2
      exact runGames_queries hg q hq2
  · intro s h1 h2
    refine ⟨s - 100, ⟨by omega, ?_⟩, ?_⟩
    · simp only [randint]
      omega
    · intro y hy
      obtain ⟨hy1, hy2⟩ := hy
      simp only [randint] at hy2
      omega
  · intro qc uN uD n
    by_cases h : 2 * uN < uD
    · simp [buildQuery, h]
    · simp only [buildQuery, if_neg h]
      constructor
      · intro hh
        exact absurd hh (by decide)
      · intro hh
        exact absurd hh h

/-- C9, witness: a concrete cycle advances the counter from 0 to 1, and
page size 150 arises from exactly one residue. -/
theorem c9_query_rotation_witness :
    (1 : ℕ) = (0 + 1) % 10
      ∧ ∃! n : ℕ, n < 101 ∧ randint 100 200 n = 150 := by
  refine ⟨?_, c9_query_rotation.2.2.1 150 (by decide) (by decide)⟩
  exact (c9_query_rotation.2.1 0 [] [] [] [] gvNone prNone
    { cache := [], rejected := [], cacheAdds := [], rejectedAdds := [],
      evaluated := [], puts := [], queries := [], aborted := false,
      gamesProcessed := 0 } 1 rfl).1

/-- C10: within one cycle's fetched list for a single game, a duplicated
submission id (in neither prior set) is evaluated once per occurrence, and
when faulty one reject PUT is issued per occurrence — deduplication applies
only across cycles, never within one fetched list. -/
theorem c10_within_cycle_duplicates :
    ∀ (qc : ℕ) (game : Game) (ignore arj : List String) (uN uD n : ℕ)
      (runs : List Run) (gv : ℤ → Option String) (pr : String → Option NetErr)
      (o : CycleOutcome) (x : String),
      runCycle qc [game] ignore arj [⟨uN, uD, n, .ok runs⟩] gv pr = .ok o →
      o.aborted = false →
      ignore.contains x = false → arj.contains x = false →
      o.evaluated.countP (fun y => y == x) = runs.countP (fun r => r.id == x)
      ∧ o.puts.countP (fun p => p.1 == x)
          = runs.countP (fun r => r.id == x && isFaulty game gv r) := by
  intro qc game ignore arj uN uD n runs gv pr o x h hab hi ha
  obtain ⟨res, hg, rfl⟩ := runCycle_ok_inv h
  have hab2 : res.aborted = false := hab
  rcases runGames_cons_ok hg with ⟨e, hres, rfl⟩
    | ⟨runs2, c, rj, ev, f, hres, hpr, hcase⟩
  · exact absurd hab2 (by simp)
  · have hrr : runs2 = runs := by
      have h0 : (Except.ok runs : Except NetErr (List Run)) = .ok runs2 := hres
      exact (Except.ok.inj h0).symm
    rcases hcase with ⟨e2, rj2, ps, hpf, rfl⟩ | ⟨rj2, ps, res2, hpf, hrec, rfl⟩
    · exact absurd hab2 (by simp)
    · have hnil := runGames_nil_ok hrec
      subst hnil
      obtain ⟨-, -, hev, hf⟩ := processRuns_ok_eq hpr
      obtain ⟨-, hps⟩ := processFaulty_none_eq hpf
      rw [hrr] at hev hf
      constructor
      · show (ev ++ ([] : List String)).countP (fun y => y == x)
          = runs.countP (fun r => r.id == x)
        rw [List.append_nil, hev]
        exact countP_evalIds hi ha
      · show (ps ++ ([] : List (String × String))).countP (fun p => p.1 == x)
          = runs.countP (fun r => r.id == x && isFaulty game gv r)
        rw [List.append_nil, hps, List.countP_map]
        have hcomp : ((fun p : String × String => p.1 == x)
            ∘ fun p : String × List SubmissionErrors =>
              (p.1, composeReason p.2))
            = fun p : String × List SubmissionErrors => p.1 == x := rfl
        rw [hcomp, hf]
        exact countP_faultyList hi ha

/-- C10, witness: the same faulty run fetched twice in one cycle is
evaluated twice and rejected twice. -/
theorem c10_within_cycle_duplicates_witness :
    outDup.evaluated.countP (fun y => y == "r1")
        = [runRta, runRta].countP (fun r => r.id == "r1")
      ∧ outDup.puts.countP (fun p => p.1 == "r1")
          = [runRta, runRta].countP
              (fun r => r.id == "r1" && isFaulty game0 gvNone r) :=
  c10_within_cycle_duplicates 0 game0 [] [] 0 1 0 [runRta, runRta] gvNone
    prNone outDup "r1" rfl rfl rfl rfl

end Celeste
